import Mathlib

/-!
# Verification of the streaming claim pipeline

This development embeds the claim-processing utilities
(`src/lib/claimProcessing.ts`) and the claim registry / verification queue
orchestration (`src/app/page.tsx`) of the fact-checker repository, and proves
properties of the embedded definitions.

Strings are processed at the level of their character lists.  The JavaScript
regular-expression replacements of `normalizeClaim` are embedded by explicit
word-boundary scanners that mirror the semantics of the source patterns
(`\bword\b` with an optional plural `s`, and `\bper\s*cent\b`).
-/

namespace FactChecker

/-- JS `\w` word character: ASCII letter, digit or underscore. -/
def isWordChar (c : Char) : Bool :=
  c.isAlphanum || c == '_'

/-- Characters removed by the final `.replace(/[.,!?;:'"]/g, "")` of
`normalizeClaim`.  Codes 39 and 34 are the apostrophe and the double quote. -/
def isStripPunct (c : Char) : Bool :=
  c == '.' || c == ',' || c == '!' || c == '?' || c == ';' || c == ':' ||
  c == Char.ofNat 39 || c == Char.ofNat 34

/-- Drop leading and trailing whitespace, as JS `String.prototype.trim`. -/
def trimChars (cs : List Char) : List Char :=
  ((cs.dropWhile Char.isWhitespace).reverse.dropWhile Char.isWhitespace).reverse

/-- Try to strip `p` as a literal prefix of `cs`, returning the rest. -/
def dropPrefixChars : List Char → List Char → Option (List Char)
  | [], cs => some cs
  | _ :: _, [] => none
  | a :: p, c :: cs => if a = c then dropPrefixChars p cs else none

/-- `\b` holds after a match iff the next character is absent or not a word
character (all source patterns end in a word character). -/
def boundaryAfter : List Char → Bool
  | [] => true
  | c :: _ => !isWordChar c

/-- Matcher for `\bw(s?)\b` at the head of the input (boundary before the
match is checked by the caller).  Returns the number of characters matched.
The optional `s` is greedy, with backtracking as in the source regexes. -/
def wordMatcher (w : List Char) (plural : Bool) (cs : List Char) : Option Nat :=
  match (if plural then dropPrefixChars (w ++ ['s']) cs else none) with
  | some rest => if boundaryAfter rest then some (w.length + 1) else
      match dropPrefixChars w cs with
      | some rest2 => if boundaryAfter rest2 then some w.length else none
      | none => none
  | none =>
      match dropPrefixChars w cs with
      | some rest2 => if boundaryAfter rest2 then some w.length else none
      | none => none

/-- Matcher for `\bper\s*cent\b` at the head of the input. -/
def perCentMatcher (cs : List Char) : Option Nat :=
  match dropPrefixChars ['p', 'e', 'r'] cs with
  | none => none
  | some rest =>
    let ws := rest.takeWhile Char.isWhitespace
    match dropPrefixChars ['c', 'e', 'n', 't'] (rest.dropWhile Char.isWhitespace) with
    | none => none
    | some rest2 => if boundaryAfter rest2 then some (3 + ws.length + 4) else none

/-- Global regex replacement scanner.  `skip` counts characters of a match
still to be consumed; `prevWord` tells whether the previous character of the
original string is a word character (so that `\b` holds before a candidate
match exactly when `prevWord = false`).  As in JS `String.prototype.replace`,
matches are located in the original string and never overlap. -/
def replaceScan (matcher : List Char → Option Nat) (repl : List Char) :
    Nat → Bool → List Char → List Char
  | 0, _, [] => []
  | 0, prevWord, c :: cs =>
    if prevWord then c :: replaceScan matcher repl 0 (isWordChar c) cs
    else
      match matcher (c :: cs) with
      | some (n + 1) => repl ++ replaceScan matcher repl n true cs
      | _ => c :: replaceScan matcher repl 0 (isWordChar c) cs
  | _ + 1, _, [] => []
  | n + 1, _, _ :: cs => replaceScan matcher repl n true cs

/-- One `\bw(s?)\b → repl` replacement pass. -/
def replaceWord (w : String) (plural : Bool) (repl : String) (cs : List Char) :
    List Char :=
  replaceScan (wordMatcher w.data plural) repl.data 0 false cs

/-- The `\bper\s*cent\b → %` replacement pass. -/
def replacePerCent (cs : List Char) : List Char :=
  replaceScan perCentMatcher ['%'] 0 false cs

/-- The sequence of unit replacements of `normalizeClaim`, in source order. -/
def unitReplace (cs : List Char) : List Char :=
  replacePerCent
    (replaceWord "percent" false "%"
      (replaceWord "euro" true "€"
        (replaceWord "pound" true "£"
          (replaceWord "dollar" true "$"
            (replaceWord "thousand" false "k"
              (replaceWord "billion" false "b"
                (replaceWord "million" false "m"
                  (replaceWord "kilobyte" true "kb"
                    (replaceWord "terabyte" true "tb"
                      (replaceWord "megabyte" true "mb"
                        (replaceWord "gigabyte" true "gb" cs)))))))))))

/-- `.replace(/\s+/g, " ")`: collapse each whitespace run to a single space.
`prevWs` tells whether we are inside a run whose space was already emitted. -/
def collapseWs : Bool → List Char → List Char
  | _, [] => []
  | prevWs, c :: cs =>
    if c.isWhitespace then
      if prevWs then collapseWs true cs else ' ' :: collapseWs true cs
    else c :: collapseWs false cs

/-- `.replace(/[.,!?;:'"]/g, "")`. -/
def stripPunct (cs : List Char) : List Char :=
  cs.filter (fun c => !isStripPunct c)

/-- Character-list form of `normalizeClaim`: lowercase, trim, unit
replacements, whitespace collapsing, punctuation stripping — in source
order. -/
def normalizeChars (cs : List Char) : List Char :=
  stripPunct (collapseWs false (unitReplace (trimChars (cs.map Char.toLower))))

/-- `normalizeClaim` from `src/lib/claimProcessing.ts`. -/
def normalizeClaim (s : String) : String :=
  ⟨normalizeChars s.data⟩

/-- `STOP_WORDS` from `src/lib/claimProcessing.ts`. -/
def STOP_WORDS : List String :=
  ["the", "a", "an", "is", "are", "was", "were", "be", "been", "being",
   "have", "has", "had", "do", "does", "did", "will", "would", "could",
   "should", "may", "might", "must", "shall", "can", "need", "dare",
   "to", "of", "in", "for", "on", "with", "at", "by", "from", "as",
   "into", "through", "during", "before", "after", "above", "below",
   "between", "under", "again", "further", "then", "once", "here",
   "there", "when", "where", "why", "how", "all", "each", "few", "more",
   "most", "other", "some", "such", "no", "nor", "not", "only", "own",
   "same", "so", "than", "too", "very", "just", "and", "but", "if", "or",
   "because", "until", "while", "although", "though", "after",
   "that", "which", "who", "whom", "this", "these", "those", "what",
   "says", "said", "according", "suggests", "mentioned", "refers",
   "described", "noted", "indicates", "asserts"]

/-- `text.split(/\s+/)` with empty fragments discarded (the callers filter
out all tokens of length at most 2, so dropping empties is equivalent). -/
def splitWsAux : List Char → List Char → List String
  | cur, [] => if cur.isEmpty then [] else [⟨cur.reverse⟩]
  | cur, c :: cs =>
    if c.isWhitespace then
      if cur.isEmpty then splitWsAux [] cs else ⟨cur.reverse⟩ :: splitWsAux [] cs
    else splitWsAux (c :: cur) cs

def splitWs (cs : List Char) : List String :=
  splitWsAux [] cs

/-- `contentTokens` from `src/lib/claimProcessing.ts`: whitespace tokens of
length above 2 that are not stop words, as a set. -/
def contentTokens (text : String) : Finset String :=
  ((splitWs text.data).filter
    (fun t => decide (2 < t.length) && !(STOP_WORDS.contains t))).toFinset

/-- JS `hay.includes(needle)`: `needle` occurs contiguously in `hay`. -/
def isSubstringOf : List Char → List Char → Bool
  | needle, [] => (dropPrefixChars needle []).isSome
  | needle, c :: cs =>
    (dropPrefixChars needle (c :: cs)).isSome || isSubstringOf needle cs

/-- `claimSimilarityScore` from `src/lib/claimProcessing.ts`. -/
def claimSimilarityScore (a b : String) : ℚ :=
  let normalizedA := normalizeClaim a
  let normalizedB := normalizeClaim b
  if normalizedA = "" ∨ normalizedB = "" then 0
  else if normalizedA = normalizedB then 1
  else if isSubstringOf normalizedB.data normalizedA.data ||
          isSubstringOf normalizedA.data normalizedB.data then 19/20
  else
    let aTokens := contentTokens normalizedA
    let bTokens := contentTokens normalizedB
    if aTokens.card = 0 ∨ bTokens.card = 0 then 0
    else ((aTokens ∩ bTokens).card : ℚ) / (min aTokens.card bTokens.card : ℚ)

/-- `CONTINUATION_WORDS` from `src/lib/claimProcessing.ts`. -/
def CONTINUATION_WORDS : List String :=
  ["of", "that", "because", "and", "or", "but", "with", "to", "for",
   "from", "as", "per", "than"]

def QUICK_DELAY_MS : Nat := 120
def BASE_DELAY_MS : Nat := 220
def NUMBER_DELAY_MS : Nat := 450
def CONTINUATION_DELAY_MS : Nat := 650

/-- `getExtractionDelayMs` from `src/lib/claimProcessing.ts`. -/
def getExtractionDelayMs (text : String) (hasExplicitVerify : Bool) : Nat :=
  if hasExplicitVerify then 0
  else
    let trimmed := trimChars text.data
    if trimmed.isEmpty then BASE_DELAY_MS
    else if (match trimmed.getLast? with
             | some c => c == '.' || c == '!' || c == '?'
             | none => false) then QUICK_DELAY_MS
    else
      let lower := trimmed.map Char.toLower
      let lastWord := (splitWs lower).getLastD ""
      if CONTINUATION_WORDS.contains lastWord then CONTINUATION_DELAY_MS
      else if (match trimmed.getLast? with
               | some c => c.isDigit
               | none => false) then NUMBER_DELAY_MS
      else BASE_DELAY_MS

/-! ## Spec-side twin definitions (for refinement claims)

These two definitions are written from the words of the specification
(§4.2 and §4.5) rather than from the source, to be compared with the
source-derived `claimSimilarityScore` and `getExtractionDelayMs`. -/

/-- Similarity rules as the spec states them, first match winning: `0` if a
normalized string is empty, `1` if they are identical, `0.95` if one contains
the other, else the shared content tokens over the smaller token set, `0` if
a token set is empty. -/
def claimSimilaritySpec (a b : String) : ℚ :=
  let nA := normalizeClaim a
  let nB := normalizeClaim b
  if nA = "" ∨ nB = "" then 0
  else if nA = nB then 1
  else if isSubstringOf nB.data nA.data || isSubstringOf nA.data nB.data then
    19/20
  else
    let tA := contentTokens nA
    let tB := contentTokens nB
    if tA.card = 0 ∨ tB.card = 0 then 0
    else ((tA ∩ tB).card : ℚ) / (min tA.card tB.card : ℚ)

/-- Extraction delay policy as the spec states it, rules checked in order:
`0` on an explicit-verify cue, else on the trimmed fragment 220 ms when
empty, 120 ms on terminal punctuation, 650 ms on a trailing continuation
word, 450 ms on a trailing digit, 220 ms otherwise. -/
def getExtractionDelaySpec (text : String) (hasExplicitVerify : Bool) : Nat :=
  if hasExplicitVerify then 0
  else
    let trimmed := trimChars text.data
    if trimmed.isEmpty then 220
    else if (match trimmed.getLast? with
             | some c => c == '.' || c == '!' || c == '?'
             | none => false) then 120
    else
      let lower := trimmed.map Char.toLower
      let lastWord := (splitWs lower).getLastD ""
      if CONTINUATION_WORDS.contains lastWord then 650
      else if (match trimmed.getLast? with
               | some c => c.isDigit
               | none => false) then 450
      else 220

/-! ## The claim registry and verification queue (`src/app/page.tsx`)

The orchestrator's state is embedded as a record of pure data.  The result
type of the external verification service is an arbitrary parameter `R`
(its shape is owned by the collaborator).  `claimById` models the JS `Map`
as its insertion-ordered entry list; record ids are allocated from the
`nextId` counter (standing in for `crypto.randomUUID`). -/

def CLAIM_TTL_MS : Int := 5 * 60 * 1000

def CLAIM_SIMILARITY_THRESHOLD : ℚ := 78/100

def CLAIM_DUPLICATE_THRESHOLD : ℚ := 92/100

inductive ClaimStatus where
  | queued
  | checking
  | done
deriving DecidableEq, Repr

structure ClaimRecord where
  id : Nat
  claim : String
  normalized : String
  revision : Nat
  status : ClaimStatus
  lastUpdatedAt : Int
  lastCheckedAt : Option Int
  inFlightRevision : Option Nat
deriving DecidableEq, Repr

structure QueuedClaim where
  id : Nat
  claim : String
  context : String
  revision : Nat
  urgent : Bool
deriving DecidableEq, Repr

structure ExtractIntent where
  hasDispute : Bool
  hasExplicitVerify : Bool
deriving DecidableEq, Repr

/-- A published fact-check card (the `FactCheck` entries of the UI list). -/
structure FactCheck (R : Type) where
  id : Nat
  claim : String
  result : Option R
  isLoading : Bool
  error : Option String
  timestamp : Int
deriving DecidableEq, Repr

structure PipelineState (R : Type) where
  factChecks : List (FactCheck R)
  queue : List QueuedClaim
  claimById : List ClaimRecord
  claimIndex : List (String × Nat)
  latestClaimId : Option Nat
  isProcessing : Bool
  pendingText : String
  pendingIntent : ExtractIntent
  nextId : Nat
deriving DecidableEq

def initState (R : Type) : PipelineState R :=
  { factChecks := [], queue := [], claimById := [], claimIndex := [],
    latestClaimId := none, isProcessing := false, pendingText := "",
    pendingIntent := ⟨false, false⟩, nextId := 1 }

/-- `claimByIdRef.current.get`. -/
def lookupRecord (l : List ClaimRecord) (id : Nat) : Option ClaimRecord :=
  l.find? (fun r => r.id == id)

/-- In-place mutation of the record with the given id. -/
def updateRecord (l : List ClaimRecord) (id : Nat) (r' : ClaimRecord) :
    List ClaimRecord :=
  l.map (fun r => if r.id = id then r' else r)

/-- `claimIndexRef.current.get`. -/
def idxGet (idx : List (String × Nat)) (k : String) : Option Nat :=
  (idx.find? (fun p => p.1 == k)).map (fun p => p.2)

/-- `claimIndexRef.current.set` (JS `Map.set`: overwrite in place, or append
a new key). -/
def idxSet : List (String × Nat) → String → Nat → List (String × Nat)
  | [], k, v => [(k, v)]
  | p :: ps, k, v => if p.1 = k then (k, v) :: ps else p :: idxSet ps k v

/-- `claimIndexRef.current.delete`. -/
def idxDelete (idx : List (String × Nat)) (k : String) : List (String × Nat) :=
  idx.filter (fun p => p.1 ≠ k)

/-- `upsertFactCheckLoading`: move the entry with this id (if any) to the
front as a fresh loading card, else prepend a new one. -/
def upsertFactCheckLoading {R : Type} (id : Nat) (claim : String) (now : Int)
    (l : List (FactCheck R)) : List (FactCheck R) :=
  match l.find? (fun fc => fc.id == id) with
  | none =>
    { id := id, claim := claim, result := none, isLoading := true,
      error := none, timestamp := now } :: l
  | some fc =>
    { fc with claim := claim, result := none, isLoading := true
              , error := none, timestamp := now }
      :: l.eraseP (fun fc => fc.id == id)

/-- `setFactCheckResult`. -/
def setFactCheckResult {R : Type} (id : Nat) (result : R)
    (l : List (FactCheck R)) : List (FactCheck R) :=
  l.map (fun fc => if fc.id = id then
    { fc with result := some result, isLoading := false, error := none }
    else fc)

/-- `setFactCheckError`. -/
def setFactCheckError {R : Type} (id : Nat) (message : String)
    (l : List (FactCheck R)) : List (FactCheck R) :=
  l.map (fun fc => if fc.id = id then
    { fc with error := some message, isLoading := false } else fc)

/-- `findIndex` + `splice(i, 1)`: remove the first queue entry with this
id. -/
def removeQueuedById (id : Nat) : List QueuedClaim → List QueuedClaim
  | [] => []
  | q :: qs => if q.id = id then qs else q :: removeQueuedById id qs

/-- `enqueueClaim` from `src/app/page.tsx`: drop any existing entry for the
same id, then put the item at the front if urgent, else at the back. -/
def enqueueClaim (item : QueuedClaim) (queue : List QueuedClaim) :
    List QueuedClaim :=
  let q := removeQueuedById item.id queue
  if item.urgent then item :: q else q ++ [item]

/-- The acceptance test of `findSimilarRecord`: the score reaches the
similarity threshold and strictly beats the running best. -/
def fuzzyTake (claim : String) (best : Option (ClaimRecord × ℚ))
    (r : ClaimRecord) : Bool :=
  decide (CLAIM_SIMILARITY_THRESHOLD ≤ claimSimilarityScore claim r.claim) &&
  (match best with
   | none => true
   | some b => decide (b.2 < claimSimilarityScore claim r.claim))

/-- `findSimilarRecord`: best fuzzy match over all records (insertion
order), score at least the similarity threshold, strictly-better score
replaces the running best. -/
def findSimilarAux (claim : String) :
    Option (ClaimRecord × ℚ) → List ClaimRecord → Option (ClaimRecord × ℚ)
  | best, [] => best
  | best, r :: rs =>
    findSimilarAux claim
      (if fuzzyTake claim best r
       then some (r, claimSimilarityScore claim r.claim) else best) rs

def findSimilarRecord (claim : String) (records : List ClaimRecord) :
    Option (ClaimRecord × ℚ) :=
  findSimilarAux claim none records

/-- The matching phase of `queueClaimCheck`: exact normalized-index hit
(score 1) first, else the fuzzy scan. -/
def findMatch (idx : List (String × Nat)) (records : List ClaimRecord)
    (claim : String) : Option (ClaimRecord × ℚ) :=
  match idxGet idx (normalizeClaim claim) with
  | some id =>
    match lookupRecord records id with
    | some r => some (r, 1)
    | none => findSimilarRecord claim records
  | none => findSimilarRecord claim records

/-- The JS truthiness test `record.lastCheckedAt && now - record.lastCheckedAt
< CLAIM_TTL_MS` (the number 0 is falsy). -/
def isRecentDoneCheck (r : ClaimRecord) (now : Int) : Bool :=
  decide (r.status = ClaimStatus.done) &&
  (match r.lastCheckedAt with
   | none => false
   | some t => decide (t ≠ 0) && decide (now - t < CLAIM_TTL_MS))

/-- `queueClaimCheck` from `src/app/page.tsx`. -/
def queueClaimCheck {R : Type} (s : PipelineState R) (claim context : String)
    (urgent forceCheck : Bool) (now : Int) : PipelineState R :=
  let normalized := normalizeClaim claim
  match findMatch s.claimIndex s.claimById claim with
  | some (matchedRecord, matchScore) =>
    let s := { s with latestClaimId := some matchedRecord.id }
    let isSameText : Bool :=
      decide (trimChars matchedRecord.claim.data = trimChars claim.data)
    let isRecentDone := isRecentDoneCheck matchedRecord now
    if isRecentDone && !forceCheck && !urgent &&
        decide (CLAIM_DUPLICATE_THRESHOLD ≤ matchScore) then s
    else if decide (matchedRecord.status ≠ ClaimStatus.done) && isSameText &&
        !forceCheck && !urgent then s
    else
      let revision :=
        if !isSameText || forceCheck || urgent ||
            decide (matchedRecord.status = ClaimStatus.done) then
          matchedRecord.revision + 1
        else matchedRecord.revision
      let r1 := { matchedRecord with
        revision := revision, claim := claim, lastUpdatedAt := now }
      let idx' :=
        if normalized ≠ matchedRecord.normalized then
          idxSet (idxDelete s.claimIndex matchedRecord.normalized) normalized
            matchedRecord.id
        else s.claimIndex
      let r2 :=
        if normalized ≠ matchedRecord.normalized then
          { r1 with normalized := normalized }
        else r1
      let r3 := { r2 with status := ClaimStatus.queued }
      { s with
        claimById := updateRecord s.claimById matchedRecord.id r3
        , claimIndex := idx'
        , factChecks := upsertFactCheckLoading matchedRecord.id claim now
            s.factChecks
        , queue := enqueueClaim
            { id := matchedRecord.id, claim := claim, context := context,
              revision := revision, urgent := urgent } s.queue }
  | none =>
    let id := s.nextId
    let record : ClaimRecord :=
      { id := id, claim := claim, normalized := normalized, revision := 1,
        status := ClaimStatus.queued, lastUpdatedAt := now,
        lastCheckedAt := none, inFlightRevision := none }
    { s with
      claimById := s.claimById ++ [record]
      , claimIndex := idxSet s.claimIndex normalized id
      , latestClaimId := some id
      , nextId := id + 1
      , factChecks := upsertFactCheckLoading id claim now s.factChecks
      , queue := enqueueClaim
          { id := id, claim := claim, context := context, revision := 1,
            urgent := urgent } s.queue }

/-! ## The verification worker and the event system -/

/-- The synchronous prefix of `processFactCheck`: the pop-time revision
guard.  Returns the new state and whether a verification call was issued
(`false` means the item was discarded without a network call and without
touching the record). -/
def startFactCheck {R : Type} (s : PipelineState R) (item : QueuedClaim) :
    PipelineState R × Bool :=
  match lookupRecord s.claimById item.id with
  | none => (s, false)
  | some record =>
    if record.revision = item.revision then
      let record' := { record with status := ClaimStatus.checking
                                 , inFlightRevision := some item.revision }
      ({ s with
          claimById := updateRecord s.claimById item.id record' }, true)
    else (s, false)

/-- The continuation of `processFactCheck` on a successful response: the
apply-time revision guard, then `status := done`, `lastCheckedAt := now`,
`inFlightRevision := undefined` and publication of the result. -/
def applyFactCheckSuccess {R : Type} (s : PipelineState R)
    (item : QueuedClaim) (result : R) (now : Int) : PipelineState R :=
  match lookupRecord s.claimById item.id with
  | none => s
  | some current =>
    if current.revision = item.revision then
      let current' := { current with status := ClaimStatus.done
                                   , lastCheckedAt := some now
                                   , inFlightRevision := none }
      { s with
        claimById := updateRecord s.claimById item.id current'
        , factChecks := setFactCheckResult item.id result s.factChecks }
    else s

/-- The continuation of `processFactCheck` on a failed response: same guard,
then `status := done`, `inFlightRevision := undefined` and an error card —
`lastCheckedAt` is left untouched by this path in the source. -/
def applyFactCheckFailure {R : Type} (s : PipelineState R)
    (item : QueuedClaim) : PipelineState R :=
  match lookupRecord s.claimById item.id with
  | none => s
  | some current =>
    if current.revision = item.revision then
      let current' := { current with status := ClaimStatus.done
                                   , inFlightRevision := none }
      { s with
        claimById := updateRecord s.claimById item.id current'
        , factChecks := setFactCheckError item.id
            "Failed to fact-check this claim." s.factChecks }
    else s

/-- A configuration is the pipeline state together with the verification
call currently in flight, if any (the `item` captured by the suspended
`processFactCheck` continuation). -/
def Config (R : Type) := PipelineState R × Option QueuedClaim

/-- The `processQueue` drain loop: pop items, discarding stale ones without
a network call, until one passes the pop-time guard (it goes in flight and
`isProcessing` stays set) or the queue empties. -/
def drainAux {R : Type} (s : PipelineState R) :
    List QueuedClaim → Config R
  | [] => ({ s with queue := [], isProcessing := false }, none)
  | item :: rest =>
    match startFactCheck { s with queue := rest } item with
    | (s', true) => ({ s' with isProcessing := true }, some item)
    | (_, false) => drainAux s rest

/-- A call to `processQueue`: a no-op while a verification is already being
processed or the queue is empty. -/
def triggerDrain {R : Type} (c : Config R) : Config R :=
  if c.1.isProcessing || c.1.queue.isEmpty then c
  else drainAux c.1 c.1.queue

/-- The response-processing part of `doExtractClaims`: queue every candidate
claim (`urgent = hasDispute ∨ forceCheck`,
`forceCheck = hasExplicitVerify ∨ forced`), and if none were queued but the
accumulated intent carries dispute or explicit-verify, fall back to
re-queuing the most recently touched claim urgently and forced.  Returns the
new state and whether anything was queued (which decides whether the queue
drain is triggered). -/
def processExtractResponse {R : Type} (s : PipelineState R)
    (claims forced : List String) (intent : ExtractIntent) (context : String)
    (now : Int) : PipelineState R × Bool :=
  let s1 := claims.foldl
    (fun acc claim =>
      let forceCheck := intent.hasExplicitVerify || forced.contains claim
      let urgent := intent.hasDispute || forceCheck
      queueClaimCheck acc claim context urgent forceCheck now) s
  if claims.isEmpty && (intent.hasDispute || intent.hasExplicitVerify) then
    match s1.latestClaimId with
    | some latestId =>
      match lookupRecord s1.claimById latestId with
      | some latestRecord =>
        (queueClaimCheck s1 latestRecord.claim context true true now, true)
      | none => (s1, false)
    | none => (s1, false)
  else (s1, !claims.isEmpty)

/-- The asynchronous events of the pipeline: a finalized transcript
fragment, an extraction response, a manual text submission, and the two
outcomes of a verification response. -/
inductive PipeEvent (R : Type) where
  | fragment (text : String) (dispute explicitVerify : Bool)
  | extractResp (claims forced : List String) (intent : ExtractIntent)
      (context : String) (now : Int)
  | textSubmit (claim context : String) (now : Int)
  | respondSuccess (result : R) (now : Int)
  | respondFailure (now : Int)

/-- One atomic turn of the single-threaded event loop. -/
def stepEvent {R : Type} (c : Config R) : PipeEvent R → Config R
  | PipeEvent.fragment text dispute explicitVerify =>
    ({ c.1 with
        pendingText := if c.1.pendingText = "" then text
          else c.1.pendingText ++ " " ++ text
        , pendingIntent :=
          ⟨c.1.pendingIntent.hasDispute || dispute,
           c.1.pendingIntent.hasExplicitVerify || explicitVerify⟩ }, c.2)
  | PipeEvent.extractResp claims forced intent context now =>
    match processExtractResponse c.1 claims forced intent context now with
    | (s1, true) => triggerDrain (s1, c.2)
    | (s1, false) => (s1, c.2)
  | PipeEvent.textSubmit claim context now =>
    if trimChars claim.data = [] then c
    else triggerDrain
      (queueClaimCheck c.1 ⟨trimChars claim.data⟩ context true true now, c.2)
  | PipeEvent.respondSuccess result now =>
    match c.2 with
    | some item =>
      triggerDrain
        ({ applyFactCheckSuccess c.1 item result now with
            isProcessing := false }, none)
    | none => c
  | PipeEvent.respondFailure _ =>
    match c.2 with
    | some item =>
      triggerDrain
        ({ applyFactCheckFailure c.1 item with isProcessing := false }, none)
    | none => c

/-- Configurations reachable from the empty session state under any
interleaving of events. -/
inductive Reachable {R : Type} : Config R → Prop where
  | init : Reachable (initState R, none)
  | step {c : Config R} (h : Reachable c) (e : PipeEvent R) :
      Reachable (stepEvent c e)

/-- The number of records currently in `checking` status. -/
def countChecking {R : Type} (s : PipelineState R) : Nat :=
  (s.claimById.filter (fun r => r.status == ClaimStatus.checking)).length

/-- The inductive invariant of the verification worker: `isProcessing`
tracks the in-flight call, record ids are unique and below the id counter,
and any `checking` record belongs to the in-flight item and carries its
revision. -/
def WorkerInv {R : Type} (c : Config R) : Prop :=
  c.1.isProcessing = c.2.isSome ∧
  (c.1.claimById.map ClaimRecord.id).Nodup ∧
  (∀ r ∈ c.1.claimById, r.id < c.1.nextId) ∧
  (∀ r ∈ c.1.claimById, r.status = ClaimStatus.checking →
    ∃ item, c.2 = some item ∧ r.id = item.id ∧ r.revision = item.revision)

/-- What a single registry operation may do to the bookkeeping state:
`isProcessing` untouched, no new `checking` record, and uniqueness /
boundedness of ids preserved. -/
def RegPres {R : Type} (s s' : PipelineState R) : Prop :=
  s'.isProcessing = s.isProcessing ∧
  (∀ r' ∈ s'.claimById, r'.status = ClaimStatus.checking →
    r' ∈ s.claimById) ∧
  (((s.claimById.map ClaimRecord.id).Nodup ∧
      ∀ r ∈ s.claimById, r.id < s.nextId) →
    ((s'.claimById.map ClaimRecord.id).Nodup ∧
      ∀ r' ∈ s'.claimById, r'.id < s'.nextId))

/-- The candidate filter of `src/app/api/extract-claims/route.ts`: an
extraction response only carries claims whose trimmed length exceeds 10. -/
def routeFilterClaims (claims : List String) : List String :=
  claims.filter (fun c => decide (10 < (trimChars c.data).length))

/-! ## Concrete fixtures for witness theorems -/

/-- A record whose verification completed at time 1000. -/
def doneRecordW : ClaimRecord :=
  { id := 1, claim := "cats are mammals", normalized := "cats are mammals",
    revision := 2, status := ClaimStatus.done, lastUpdatedAt := 900,
    lastCheckedAt := some 1000, inFlightRevision := none }

/-- A session holding only `doneRecordW`, with an idle worker. -/
def stateW : PipelineState Nat :=
  { factChecks := [], queue := [], claimById := [doneRecordW],
    claimIndex := [("cats are mammals", 1)], latestClaimId := some 1,
    isProcessing := false, pendingText := "",
    pendingIntent := ⟨false, false⟩, nextId := 2 }

/-- The same record while its revision 2 is being verified. -/
def checkingRecordW : ClaimRecord :=
  { id := 1, claim := "cats are mammals", normalized := "cats are mammals",
    revision := 2, status := ClaimStatus.checking, lastUpdatedAt := 900,
    lastCheckedAt := some 1000, inFlightRevision := some 2 }

/-- A session with the revision-2 verification of `checkingRecordW` in
flight. -/
def stateCheckingW : PipelineState Nat :=
  { factChecks := [], queue := [], claimById := [checkingRecordW],
    claimIndex := [("cats are mammals", 1)], latestClaimId := some 1,
    isProcessing := true, pendingText := "",
    pendingIntent := ⟨false, false⟩, nextId := 2 }

/-- A work item carrying the superseded revision 1. -/
def itemStaleW : QueuedClaim :=
  { id := 1, claim := "cats are mammals", context := "ctx", revision := 1,
    urgent := false }

/-- A work item carrying the current revision 2. -/
def itemLiveW : QueuedClaim :=
  { id := 1, claim := "cats are mammals", context := "ctx", revision := 2,
    urgent := false }

/-- A work item referencing an id with no record. -/
def itemMissingW : QueuedClaim :=
  { id := 9, claim := "unknown", context := "ctx", revision := 1,
    urgent := false }

/-- Claim C6: for all strings, `claimSimilarityScore` is computed by the
spec's ordered rules over the normalized forms, and the result always lies
in `[0, 1]`. -/
theorem claimSimilarityScore_rules_and_range (a b : String) :
    claimSimilarityScore a b = claimSimilaritySpec a b ∧
    0 ≤ claimSimilarityScore a b ∧ claimSimilarityScore a b ≤ 1 := by
  refine ⟨rfl, ?_⟩
  simp only [claimSimilarityScore]
  split_ifs with h1 h2 h3 h4
  · norm_num
  · norm_num
  · norm_num
  · norm_num
  · push_neg at h4
    have hA : 0 < (contentTokens (normalizeClaim a)).card :=
      Nat.pos_of_ne_zero h4.1
    have hB : 0 < (contentTokens (normalizeClaim b)).card :=
      Nat.pos_of_ne_zero h4.2
    have hmin : (0:ℚ) < (((contentTokens (normalizeClaim a)).card : ℚ) ⊓
        ((contentTokens (normalizeClaim b)).card : ℚ)) :=
      lt_min (by exact_mod_cast hA) (by exact_mod_cast hB)
    have hle : (((contentTokens (normalizeClaim a) ∩
        contentTokens (normalizeClaim b)).card : Nat) : ℚ) ≤
        (((contentTokens (normalizeClaim a)).card : ℚ) ⊓
          ((contentTokens (normalizeClaim b)).card : ℚ)) :=
      le_min
        (by exact_mod_cast Finset.card_le_card Finset.inter_subset_left)
        (by exact_mod_cast Finset.card_le_card Finset.inter_subset_right)
    constructor
    · exact div_nonneg (Nat.cast_nonneg _) (le_of_lt hmin)
    · rw [div_le_one hmin]
      exact hle

set_option maxHeartbeats 1000000 in
/-- Claim C7: `getExtractionDelayMs` implements exactly the spec's ordered
delay rules, and in particular a sentence with terminal punctuation gets a
strictly shorter delay than one ending in a bare digit. -/
theorem getExtractionDelayMs_rules_and_ordering :
    (∀ (text : String) (hasExplicitVerify : Bool),
      getExtractionDelayMs text hasExplicitVerify =
        getExtractionDelaySpec text hasExplicitVerify) ∧
    getExtractionDelayMs "Unemployment is 5%." false <
      getExtractionDelayMs "Unemployment is 5" false := by
  exact ⟨fun _ _ => rfl, by decide⟩

/-! ## Idempotence of the normalizer (C5)

`normalizeClaim` strips punctuation only after collapsing whitespace, so a
first pass can leave trailing spaces and can glue unit keywords together
(e.g. `"mil.lion"` becomes `"million"`, which a second pass rewrites to
`"m"`).  Idempotence therefore fails in general; it holds for strings that
are already lowercase, contain no stripped punctuation and mention no unit
keyword. -/

theorem head?_dropWhile_not {p : Char → Bool} :
    ∀ (l : List Char) (c : Char),
      (l.dropWhile p).head? = some c → p c = false := by
  intro l
  induction l with
  | nil => intro c h; simp at h
  | cons a l ih =>
    intro c h
    rw [List.dropWhile_cons] at h
    split at h
    · exact ih c h
    · next hp =>
      simp only [List.head?_cons, Option.some.injEq] at h
      subst h
      simpa using hp

theorem mem_trimChars {c : Char} {l : List Char} (h : c ∈ trimChars l) :
    c ∈ l := by
  unfold trimChars at h
  rw [List.mem_reverse] at h
  have h2 := (List.dropWhile_sublist _).mem h
  rw [List.mem_reverse] at h2
  exact (List.dropWhile_sublist _).mem h2

theorem mem_collapseWs {c : Char} :
    ∀ (b : Bool) (l : List Char), c ∈ collapseWs b l → c ∈ l ∨ c = ' ' := by
  intro b l
  induction l generalizing b with
  | nil => intro h; simp [collapseWs] at h
  | cons a l ih =>
    intro h
    by_cases hw : a.isWhitespace
    · by_cases hb : b
      · subst hb
        simp only [collapseWs, hw, if_true] at h
        rcases ih true h with h' | h'
        · exact Or.inl (List.mem_cons_of_mem _ h')
        · exact Or.inr h'
      · simp only [collapseWs, hw, if_true, if_neg hb] at h
        rcases List.mem_cons.mp h with h' | h'
        · exact Or.inr h'
        · rcases ih true h' with h'' | h''
          · exact Or.inl (List.mem_cons_of_mem _ h'')
          · exact Or.inr h''
    · simp only [collapseWs, hw, if_false] at h
      rcases List.mem_cons.mp h with h' | h'
      · exact Or.inl (h' ▸ List.mem_cons_self _ _)
      · rcases ih false h' with h'' | h''
        · exact Or.inl (List.mem_cons_of_mem _ h'')
        · exact Or.inr h''

theorem collapseWs_ne_nil {l : List Char} (h : l ≠ []) :
    collapseWs false l ≠ [] := by
  cases l with
  | nil => exact absurd rfl h
  | cons a l => by_cases hw : a.isWhitespace <;> simp [collapseWs, hw]

theorem all_ws_of_collapseWs_eq_nil :
    ∀ (b : Bool) (l : List Char), collapseWs b l = [] →
      ∀ c ∈ l, c.isWhitespace = true := by
  intro b l
  induction l generalizing b with
  | nil => intro _ c hc; simp at hc
  | cons a l ih =>
    intro h c hc
    by_cases hw : a.isWhitespace
    · cases b with
      | true =>
        have heq : collapseWs true (a :: l) = collapseWs true l := by
          simp [collapseWs, hw]
        rw [heq] at h
        rcases List.mem_cons.mp hc with h' | h'
        · exact h' ▸ hw
        · exact ih true h c h'
      | false => simp [collapseWs, hw] at h
    · cases b <;> simp [collapseWs, hw] at h

theorem getLast?_collapseWs_not_ws :
    ∀ (l : List Char) (b : Bool),
      (∀ d, l.getLast? = some d → d.isWhitespace = false) →
      ∀ c, (collapseWs b l).getLast? = some c → c.isWhitespace = false := by
  intro l
  induction l with
  | nil => intro b _ c hc; simp [collapseWs] at hc
  | cons a l ih =>
    intro b hl c hc
    cases l with
    | nil =>
      have ha : a.isWhitespace = false := hl a rfl
      have heq : collapseWs b [a] = [a] := by
        cases b <;> simp [collapseWs, ha]
      rw [heq] at hc
      simp only [List.getLast?_singleton, Option.some.injEq] at hc
      exact hc ▸ ha
    | cons a' l' =>
      have hl' : ∀ d, (a' :: l').getLast? = some d → d.isWhitespace = false :=
        fun d hd => hl d (by rw [List.getLast?_cons_cons]; exact hd)
      by_cases hw : a.isWhitespace
      · cases b with
        | true =>
          have heq : collapseWs true (a :: a' :: l') =
              collapseWs true (a' :: l') := by
            simp [collapseWs, hw]
          rw [heq] at hc
          exact ih true hl' c hc
        | false =>
          have hne : collapseWs true (a' :: l') ≠ [] := by
            intro h0
            obtain ⟨d, hd⟩ := Option.isSome_iff_exists.mp
              ((List.getLast?_isSome (l := a' :: l')).mpr (by simp))
            have hmem := List.mem_of_mem_getLast? hd
            have hwd := all_ws_of_collapseWs_eq_nil true _ h0 d hmem
            rw [hl' d hd] at hwd
            exact Bool.false_ne_true hwd
          have heq : collapseWs false (a :: a' :: l') =
              ' ' :: collapseWs true (a' :: l') := by
            simp [collapseWs, hw]
          rw [heq] at hc
          cases hX : collapseWs true (a' :: l') with
          | nil => exact absurd hX hne
          | cons x xs =>
            rw [hX, List.getLast?_cons_cons] at hc
            exact ih true hl' c (by rw [hX]; exact hc)
      · have hXne : collapseWs false (a' :: l') ≠ [] :=
          collapseWs_ne_nil (by simp)
        have heq : collapseWs b (a :: a' :: l') =
            a :: collapseWs false (a' :: l') := by
          cases b <;> simp [collapseWs, hw]
        rw [heq] at hc
        cases hX : collapseWs false (a' :: l') with
        | nil => exact absurd hX hXne
        | cons x xs =>
          rw [hX, List.getLast?_cons_cons] at hc
          exact ih false hl' c (by rw [hX]; exact hc)

theorem trimChars_getLast?_not_ws {l : List Char} {c : Char}
    (h : (trimChars l).getLast? = some c) : c.isWhitespace = false := by
  unfold trimChars at h
  rw [List.getLast?_reverse] at h
  exact head?_dropWhile_not _ _ h

theorem getLast?_dropWhile_of_ne_nil {p : Char → Bool} {l : List Char}
    (h : l.dropWhile p ≠ []) : (l.dropWhile p).getLast? = l.getLast? := by
  induction l with
  | nil => simp at h
  | cons a l ih =>
    rw [List.dropWhile_cons] at h ⊢
    split
    · next hp =>
      have hne : l.dropWhile p ≠ [] := by
        intro h0; rw [if_pos hp, h0] at h; exact h rfl
      rw [ih hne]
      cases hl : l with
      | nil =>
        subst hl; simp [List.dropWhile] at hne
      | cons b bs => rw [List.getLast?_cons_cons]
    · rfl

theorem trimChars_head?_not_ws {l : List Char} {c : Char}
    (h : (trimChars l).head? = some c) : c.isWhitespace = false := by
  unfold trimChars at h
  rw [List.head?_reverse] at h
  have hne : (l.dropWhile Char.isWhitespace).reverse.dropWhile
      Char.isWhitespace ≠ [] := by
    intro h0; rw [h0] at h; exact Option.noConfusion h
  rw [getLast?_dropWhile_of_ne_nil hne, List.getLast?_reverse] at h
  exact head?_dropWhile_not _ _ h

theorem collapseWs_head? {l : List Char} {c : Char} (hc : l.head? = some c)
    (hw : c.isWhitespace = false) : (collapseWs false l).head? = some c := by
  cases l with
  | nil => simp at hc
  | cons a l =>
    simp only [List.head?_cons, Option.some.injEq] at hc
    subst hc
    simp [collapseWs, hw]

theorem trimChars_eq_self {l : List Char}
    (h1 : ∀ c, l.head? = some c → c.isWhitespace = false)
    (h2 : ∀ c, l.getLast? = some c → c.isWhitespace = false) :
    trimChars l = l := by
  unfold trimChars
  have hd : l.dropWhile Char.isWhitespace = l := by
    cases hl : l with
    | nil => rfl
    | cons a as =>
      rw [List.dropWhile_cons, if_neg]
      rw [h1 a (by rw [hl]; rfl)]
      simp
  rw [hd]
  have hr : l.reverse.dropWhile Char.isWhitespace = l.reverse := by
    cases hl : l.reverse with
    | nil => rfl
    | cons a as =>
      rw [List.dropWhile_cons, if_neg]
      have : l.getLast? = some a := by
        rw [← List.head?_reverse, hl]; rfl
      rw [h2 a this]
      simp
  rw [hr, List.reverse_reverse]

theorem collapseWs_idem :
    ∀ (l : List Char) (b : Bool), collapseWs b (collapseWs b l) =
      collapseWs b l := by
  intro l
  induction l with
  | nil => intro b; rfl
  | cons a l ih =>
    intro b
    by_cases hw : a.isWhitespace
    · cases b with
      | true =>
        have h1 : collapseWs true (a :: l) = collapseWs true l := by
          simp [collapseWs, hw]
        rw [h1, ih true]
      | false =>
        have h1 : collapseWs false (a :: l) = ' ' :: collapseWs true l := by
          simp [collapseWs, hw]
        have h2 : collapseWs false (' ' :: collapseWs true l) =
            ' ' :: collapseWs true (collapseWs true l) := by
          simp [collapseWs]
        rw [h1, h2, ih true]
    · have h1 : ∀ (b' : Bool) (y : List Char),
          collapseWs b' (a :: y) = a :: collapseWs false y := by
        intro b' y
        cases b' <;> simp [collapseWs, hw]
      rw [h1, h1, ih false]

/-- Claim C5 (counterexample): `normalizeClaim` is not idempotent.  On
`"mil.lion"` the first pass strips the dot after the word-level unit
replacements ran, producing `"million"`, and a second pass rewrites that to
`"m"`. -/
theorem normalizeClaim_not_idempotent :
    ¬ (normalizeClaim (normalizeClaim "mil.lion") =
        normalizeClaim "mil.lion") := by
  decide

/-- Claim C5 (amended): `normalizeClaim` is idempotent on every string that
is already lowercase, contains none of the stripped punctuation characters,
and mentions no unit keyword — formally, the unit-replacement pass is the
identity on its trimmed form and on the whitespace-collapsed trimmed form.
In general idempotence fails (see the counterexample). -/
theorem normalizeClaim_idempotent_amended (x : String)
    (hlower : ∀ c ∈ x.data, Char.toLower c = c)
    (hpunct : ∀ c ∈ x.data, isStripPunct c = false)
    (hunit1 : unitReplace (trimChars x.data) = trimChars x.data)
    (hunit2 : unitReplace (collapseWs false (trimChars x.data)) =
      collapseWs false (trimChars x.data)) :
    normalizeClaim (normalizeClaim x) = normalizeClaim x := by
  have hmap : x.data.map Char.toLower = x.data :=
    (List.map_congr_left hlower).trans (List.map_id x.data)
  have hy : ∀ c ∈ collapseWs false (trimChars x.data),
      c ∈ x.data ∨ c = ' ' := by
    intro c hc
    rcases mem_collapseWs false (trimChars x.data) hc with h | h
    · exact Or.inl (mem_trimChars h)
    · exact Or.inr h
  have hstrip : stripPunct (collapseWs false (trimChars x.data)) =
      collapseWs false (trimChars x.data) := by
    apply List.filter_eq_self.mpr
    intro c hc
    rcases hy c hc with h | h
    · simp [hpunct c h]
    · subst h; rfl
  have hnx : normalizeChars x.data = collapseWs false (trimChars x.data) := by
    unfold normalizeChars
    rw [hmap, hunit1, hstrip]
  have hlower2 : (collapseWs false (trimChars x.data)).map Char.toLower =
      collapseWs false (trimChars x.data) := by
    refine (List.map_congr_left ?_).trans
      (List.map_id (collapseWs false (trimChars x.data)))
    intro c hc
    rcases hy c hc with h | h
    · exact hlower c h
    · subst h; rfl
  have htrim2 : trimChars (collapseWs false (trimChars x.data)) =
      collapseWs false (trimChars x.data) := by
    cases hte : trimChars x.data with
    | nil => rfl
    | cons a t' =>
      apply trimChars_eq_self
      · intro c hc
        have hwa : a.isWhitespace = false :=
          trimChars_head?_not_ws (l := x.data) (by rw [hte]; rfl)
        have hha : (a :: t').head? = some a := rfl
        rw [collapseWs_head? hha hwa] at hc
        simp only [Option.some.injEq] at hc
        exact hc ▸ hwa
      · intro c hc
        rw [← hte] at hc
        exact getLast?_collapseWs_not_ws (trimChars x.data) false
          (fun d hd => trimChars_getLast?_not_ws hd) c hc
  have hny : normalizeChars (collapseWs false (trimChars x.data)) =
      collapseWs false (trimChars x.data) := by
    unfold normalizeChars
    rw [hlower2, htrim2, hunit2, collapseWs_idem, hstrip]
  unfold normalizeClaim
  rw [hnx]
  show (⟨normalizeChars (collapseWs false (trimChars x.data))⟩ : String) = _
  rw [hny]

/-- Claim C5 (witness): the amended idempotence theorem applies to the
concrete string `"cats are mammals"`. -/
theorem normalizeClaim_idempotent_amended_witness :
    normalizeClaim (normalizeClaim "cats are mammals") =
      normalizeClaim "cats are mammals" :=
  normalizeClaim_idempotent_amended "cats are mammals"
    (by decide) (by decide) (by decide) (by decide)

/-! ## Helper lemmas about the registry operations -/

theorem findSimilarAux_mem (claim : String) :
    ∀ (l : List ClaimRecord) (best : Option (ClaimRecord × ℚ))
      (r : ClaimRecord) (sc : ℚ),
      findSimilarAux claim best l = some (r, sc) →
      best = some (r, sc) ∨ r ∈ l := by
  intro l
  induction l with
  | nil => intro best r sc h; exact Or.inl h
  | cons x xs ih =>
    intro best r sc h
    rw [findSimilarAux] at h
    by_cases htake : fuzzyTake claim best x = true
    · rw [if_pos htake] at h
      rcases ih _ r sc h with h' | h'
      · simp only [Option.some.injEq, Prod.mk.injEq] at h'
        exact Or.inr (h'.1 ▸ List.mem_cons_self x xs)
      · exact Or.inr (List.mem_cons_of_mem x h')
    · rw [if_neg htake] at h
      rcases ih _ r sc h with h' | h'
      · exact Or.inl h'
      · exact Or.inr (List.mem_cons_of_mem x h')

theorem findMatch_mem {idx : List (String × Nat)} {records : List ClaimRecord}
    {claim : String} {r : ClaimRecord} {sc : ℚ}
    (h : findMatch idx records claim = some (r, sc)) : r ∈ records := by
  unfold findMatch findSimilarRecord at h
  split at h
  · split at h
    · next r0 heq =>
      simp only [Option.some.injEq, Prod.mk.injEq] at h
      exact h.1 ▸ List.mem_of_find?_eq_some heq
    · rcases findSimilarAux_mem claim records none r sc h with h' | h'
      · exact Option.noConfusion h'
      · exact h'
  · rcases findSimilarAux_mem claim records none r sc h with h' | h'
    · exact Option.noConfusion h'
    · exact h'

theorem lookupRecord_updateRecord_self :
    ∀ (l : List ClaimRecord) (id : Nat) (r' : ClaimRecord),
      (∃ x ∈ l, x.id = id) → r'.id = id →
      lookupRecord (updateRecord l id r') id = some r' := by
  intro l
  induction l with
  | nil => intro id r' h _; obtain ⟨x, hx, _⟩ := h; exact absurd hx (by simp)
  | cons a l ih =>
    intro id r' h hid
    by_cases ha : a.id = id
    · unfold updateRecord lookupRecord
      simp only [List.map_cons, if_pos ha]
      rw [List.find?_cons_of_pos _ (by simp [hid])]
    · unfold updateRecord lookupRecord
      simp only [List.map_cons, if_neg ha]
      rw [List.find?_cons_of_neg _ (by simp [ha])]
      apply ih
      · obtain ⟨x, hx, hxid⟩ := h
        rcases List.mem_cons.mp hx with h' | h'
        · exact absurd (h' ▸ hxid) ha
        · exact ⟨x, h', hxid⟩
      · exact hid

theorem enqueueClaim_urgent (item : QueuedClaim) (q : List QueuedClaim)
    (h : item.urgent = true) :
    enqueueClaim item q = item :: removeQueuedById item.id q := by
  unfold enqueueClaim
  rw [h]
  simp

/-! ## C3 / C10: the recently-done suppression branch -/

theorem queueClaimCheck_suppressed {R : Type} (s : PipelineState R)
    (claim context : String) (now : Int) (r : ClaimRecord) (sc : ℚ) (t : Int)
    (hmatch : findMatch s.claimIndex s.claimById claim = some (r, sc))
    (hdone : r.status = ClaimStatus.done)
    (hlast : r.lastCheckedAt = some t) (ht : 0 < t)
    (httl : now - t < CLAIM_TTL_MS)
    (hsc : CLAIM_DUPLICATE_THRESHOLD ≤ sc) :
    queueClaimCheck s claim context false false now =
      { s with latestClaimId := some r.id } := by
  unfold queueClaimCheck
  rw [hmatch]
  have hrecent : isRecentDoneCheck r now = true := by
    unfold isRecentDoneCheck
    rw [hlast, hdone]
    simp [ne_of_gt ht, httl]
  simp [hrecent, hsc]

/-- Claim C3: a non-urgent, non-forced `queueClaimCheck` whose match is a
recently-done record (within the 5-minute TTL, at a positive check time)
with score at least 0.92 enqueues nothing, bumps no revision and leaves
every record, including its status, text and normalized index, unchanged. -/
theorem dedup_suppression {R : Type} (s : PipelineState R)
    (claim context : String) (now : Int) (r : ClaimRecord) (sc : ℚ) (t : Int)
    (hmatch : findMatch s.claimIndex s.claimById claim = some (r, sc))
    (hdone : r.status = ClaimStatus.done)
    (hlast : r.lastCheckedAt = some t) (ht : 0 < t)
    (httl : now - t < CLAIM_TTL_MS)
    (hsc : CLAIM_DUPLICATE_THRESHOLD ≤ sc) :
    (queueClaimCheck s claim context false false now).queue = s.queue ∧
    (queueClaimCheck s claim context false false now).claimById =
      s.claimById ∧
    (queueClaimCheck s claim context false false now).claimIndex =
      s.claimIndex := by
  rw [queueClaimCheck_suppressed s claim context now r sc t hmatch hdone hlast
    ht httl hsc]
  exact ⟨rfl, rfl, rfl⟩

/-- Claim C10: the suppressed drop is not a complete no-op — it still moves
the most-recently-touched pointer to the matched record's id, and every
other component of the state (records, queue, index, published cards,
worker flag, id counter, pending buffers) is exactly unchanged. -/
theorem suppressed_drop_frame {R : Type} (s : PipelineState R)
    (claim context : String) (now : Int) (r : ClaimRecord) (sc : ℚ) (t : Int)
    (hmatch : findMatch s.claimIndex s.claimById claim = some (r, sc))
    (hdone : r.status = ClaimStatus.done)
    (hlast : r.lastCheckedAt = some t) (ht : 0 < t)
    (httl : now - t < CLAIM_TTL_MS)
    (hsc : CLAIM_DUPLICATE_THRESHOLD ≤ sc) :
    queueClaimCheck s claim context false false now =
      { s with latestClaimId := some r.id } :=
  queueClaimCheck_suppressed s claim context now r sc t hmatch hdone hlast ht
    httl hsc

/-! ## C4: the urgent bypass -/

/-- Claim C4: an urgent `queueClaimCheck` on any matched record — even a
recently-done one with score at least 0.92 — bumps the revision by exactly
one, sets the status to `queued`, and places the snapshot carrying the new
revision at the front of the queue after removing any existing entry with
the same id. -/
theorem urgent_bypass {R : Type} (s : PipelineState R)
    (claim context : String) (forceCheck : Bool) (now : Int)
    (r : ClaimRecord) (sc : ℚ)
    (hmatch : findMatch s.claimIndex s.claimById claim = some (r, sc)) :
    (∃ r', lookupRecord
        (queueClaimCheck s claim context true forceCheck now).claimById r.id =
          some r' ∧
      r'.revision = r.revision + 1 ∧ r'.status = ClaimStatus.queued) ∧
    (queueClaimCheck s claim context true forceCheck now).queue =
      { id := r.id, claim := claim, context := context,
        revision := r.revision + 1, urgent := true }
        :: removeQueuedById r.id s.queue := by
  have hmem : ∃ x ∈ s.claimById, x.id = r.id :=
    ⟨r, findMatch_mem hmatch, rfl⟩
  constructor
  · unfold queueClaimCheck
    rw [hmatch]
    simp only [Bool.not_true, Bool.and_false, Bool.false_and, Bool.or_true,
      Bool.true_or, Bool.false_eq_true, if_false, eq_self_iff_true, if_true]
    by_cases hn : normalizeClaim claim ≠ r.normalized
    · simp only [if_pos hn]
      exact ⟨_, lookupRecord_updateRecord_self _ _ _ hmem rfl, rfl, rfl⟩
    · simp only [if_neg hn]
      exact ⟨_, lookupRecord_updateRecord_self _ _ _ hmem rfl, rfl, rfl⟩
  · unfold queueClaimCheck
    rw [hmatch]
    simp only [Bool.not_true, Bool.and_false, Bool.false_and, Bool.or_true,
      Bool.true_or, Bool.false_eq_true, if_false, eq_self_iff_true, if_true]
    exact enqueueClaim_urgent _ _ rfl

/-! ## C9: the dispute / explicit-verify fallback -/

theorem queueClaimCheck_urgent_head {R : Type} (s : PipelineState R)
    (claim context : String) (forceCheck : Bool) (now : Int) :
    ∃ q rest,
      (queueClaimCheck s claim context true forceCheck now).queue =
        q :: rest ∧ q.urgent = true ∧ q.claim = claim := by
  unfold queueClaimCheck
  cases hm : findMatch s.claimIndex s.claimById claim with
  | some pair =>
    obtain ⟨r, sc⟩ := pair
    simp only [Bool.not_true, Bool.and_false, Bool.false_and, Bool.or_true,
      Bool.true_or, Bool.false_eq_true, if_false, eq_self_iff_true, if_true]
    rw [enqueueClaim_urgent _ _ rfl]
    exact ⟨_, _, rfl, rfl, rfl⟩
  | none =>
    refine ⟨{ id := s.nextId, claim := claim, context := context
            , revision := 1, urgent := true },
      removeQueuedById s.nextId s.queue, ?_, rfl, rfl⟩
    show enqueueClaim { id := s.nextId, claim := claim, context := context
                      , revision := 1, urgent := true } s.queue = _
    exact enqueueClaim_urgent _ _ rfl

/-- Claim C9: an extraction round with zero candidates whose accumulated
intent carries dispute or explicit-verify, in a state with a most recently
touched record, re-queues that record's claim with `urgent = true` and
`forceCheck = true` — and that call always places an urgent item for that
claim text at the front of the queue rather than ignoring the input. -/
theorem dispute_fallback {R : Type} (s : PipelineState R)
    (forced : List String) (intent : ExtractIntent) (context : String)
    (now : Int) (latestId : Nat) (r : ClaimRecord)
    (hintent : (intent.hasDispute || intent.hasExplicitVerify) = true)
    (hlatest : s.latestClaimId = some latestId)
    (hrec : lookupRecord s.claimById latestId = some r) :
    processExtractResponse s [] forced intent context now =
      (queueClaimCheck s r.claim context true true now, true) ∧
    ∃ q rest,
      (queueClaimCheck s r.claim context true true now).queue = q :: rest ∧
        q.urgent = true ∧ q.claim = r.claim := by
  constructor
  · unfold processExtractResponse
    simp only [List.foldl_nil, List.isEmpty_nil, Bool.true_and, hintent,
      if_true, hlatest, hrec]
  · exact queueClaimCheck_urgent_head s r.claim context true now

/-- Claim C9 (witness): the fallback theorem applied to the concrete session
`stateW` on a pure dispute round. -/
theorem dispute_fallback_witness :
    processExtractResponse stateW [] [] ⟨true, false⟩ "ctx" 1200 =
      (queueClaimCheck stateW doneRecordW.claim "ctx" true true 1200, true) ∧
    ∃ q rest,
      (queueClaimCheck stateW doneRecordW.claim "ctx" true true 1200).queue =
        q :: rest ∧ q.urgent = true ∧ q.claim = doneRecordW.claim :=
  dispute_fallback stateW [] ⟨true, false⟩ "ctx" 1200 1 doneRecordW
    (by decide) (by decide) (by decide)

/-! ## C1: the revision guard of the verification worker -/

/-- Claim C1 (amended): popping an item whose revision disagrees with the
record (or whose record is missing) issues no verification call and leaves
the state untouched; a response whose revision no longer matches is
discarded without any visible change; a matching response sets
`status = done` and clears `inFlightRevision` — on success it also sets
`lastCheckedAt` to the current time and publishes the result, while on
failure it publishes the error and leaves `lastCheckedAt` unchanged. -/
theorem revision_guard {R : Type} (s : PipelineState R) (item : QueuedClaim)
    (result : R) (now : Int) :
    (lookupRecord s.claimById item.id = none →
      startFactCheck s item = (s, false)) ∧
    (∀ r, lookupRecord s.claimById item.id = some r →
      r.revision ≠ item.revision → startFactCheck s item = (s, false)) ∧
    (lookupRecord s.claimById item.id = none →
      applyFactCheckSuccess s item result now = s) ∧
    (∀ r, lookupRecord s.claimById item.id = some r →
      r.revision ≠ item.revision →
      applyFactCheckSuccess s item result now = s) ∧
    (lookupRecord s.claimById item.id = none →
      applyFactCheckFailure s item = s) ∧
    (∀ r, lookupRecord s.claimById item.id = some r →
      r.revision ≠ item.revision → applyFactCheckFailure s item = s) ∧
    (∀ r, lookupRecord s.claimById item.id = some r →
      r.revision = item.revision →
      applyFactCheckSuccess s item result now =
        { s with
          claimById := updateRecord s.claimById item.id
            { r with status := ClaimStatus.done
                   , lastCheckedAt := some now
                   , inFlightRevision := none }
          , factChecks := setFactCheckResult item.id result s.factChecks }) ∧
    (∀ r, lookupRecord s.claimById item.id = some r →
      r.revision = item.revision →
      applyFactCheckFailure s item =
        { s with
          claimById := updateRecord s.claimById item.id
            { r with status := ClaimStatus.done
                   , inFlightRevision := none }
          , factChecks := setFactCheckError item.id
              "Failed to fact-check this claim." s.factChecks }) := by
  refine ⟨?_, ?_, ?_, ?_, ?_, ?_, ?_, ?_⟩
  · intro h; unfold startFactCheck; rw [h]
  · intro r h hrev; unfold startFactCheck; simp only [h, if_neg hrev]
  · intro h; unfold applyFactCheckSuccess; rw [h]
  · intro r h hrev; unfold applyFactCheckSuccess; simp only [h, if_neg hrev]
  · intro h; unfold applyFactCheckFailure; rw [h]
  · intro r h hrev; unfold applyFactCheckFailure; simp only [h, if_neg hrev]
  · intro r h hrev; unfold applyFactCheckSuccess; simp only [h, if_pos hrev]
  · intro r h hrev; unfold applyFactCheckFailure; simp only [h, if_pos hrev]

/-- Claim C1 (counterexample): the claim as stated also asserts that a
matching *failure* response sets `lastCheckedAt` to the current time.  In
the concrete in-flight session `stateCheckingW`, the matching failure
response is applied (the record becomes `done`) yet `lastCheckedAt` keeps
its old value 1000 — the failure path of the source never writes it, so no
response time is ever recorded there. -/
theorem failure_keeps_lastCheckedAt :
    (lookupRecord (applyFactCheckFailure stateCheckingW itemLiveW).claimById
        1).map ClaimRecord.status = some ClaimStatus.done ∧
    (lookupRecord (applyFactCheckFailure stateCheckingW itemLiveW).claimById
        1).map ClaimRecord.lastCheckedAt = some (some 1000) := by
  decide

/-- Claim C1 (witness): the amended revision-guard theorem at the concrete
in-flight session, for a stale item, a missing record, and the matching
item. -/
theorem revision_guard_witness :
    startFactCheck stateCheckingW itemStaleW = (stateCheckingW, false) ∧
    startFactCheck stateCheckingW itemMissingW = (stateCheckingW, false) ∧
    applyFactCheckSuccess stateCheckingW itemStaleW 7 5000 = stateCheckingW ∧
    applyFactCheckFailure stateCheckingW itemStaleW = stateCheckingW ∧
    applyFactCheckSuccess stateCheckingW itemLiveW 7 5000 =
      { stateCheckingW with
        claimById := updateRecord stateCheckingW.claimById 1
          { checkingRecordW with status := ClaimStatus.done
                               , lastCheckedAt := some 5000
                               , inFlightRevision := none }
        , factChecks := setFactCheckResult 1 7 stateCheckingW.factChecks } ∧
    applyFactCheckFailure stateCheckingW itemLiveW =
      { stateCheckingW with
        claimById := updateRecord stateCheckingW.claimById 1
          { checkingRecordW with status := ClaimStatus.done
                               , inFlightRevision := none }
        , factChecks := setFactCheckError 1
            "Failed to fact-check this claim." stateCheckingW.factChecks } :=
  ⟨(revision_guard stateCheckingW itemStaleW 7 5000).2.1 checkingRecordW
      (by decide) (by decide),
   (revision_guard stateCheckingW itemMissingW 7 5000).1 (by decide),
   (revision_guard stateCheckingW itemStaleW 7 5000).2.2.2.1 checkingRecordW
      (by decide) (by decide),
   (revision_guard stateCheckingW itemStaleW 7 5000).2.2.2.2.2.1
      checkingRecordW (by decide) (by decide),
   (revision_guard stateCheckingW itemLiveW 7 5000).2.2.2.2.2.2.1
      checkingRecordW (by decide) (by decide),
   (revision_guard stateCheckingW itemLiveW 7 5000).2.2.2.2.2.2.2
      checkingRecordW (by decide) (by decide)⟩

/-- Claim C3 (witness): the suppression theorem at the concrete recently
checked session, with an exact (score 1) repeat of the claim text. -/
theorem dedup_suppression_witness :
    (queueClaimCheck stateW "cats are mammals" "ctx" false false 1200).queue =
      stateW.queue ∧
    (queueClaimCheck stateW "cats are mammals" "ctx" false false
      1200).claimById = stateW.claimById ∧
    (queueClaimCheck stateW "cats are mammals" "ctx" false false
      1200).claimIndex = stateW.claimIndex :=
  dedup_suppression stateW "cats are mammals" "ctx" 1200 doneRecordW 1 1000
    (by decide) (by decide) (by decide) (by decide) (by decide)
    (by norm_num [CLAIM_DUPLICATE_THRESHOLD])

/-- Claim C10 (witness): the frame theorem at the same concrete session:
the suppressed call only moves the latest-claim pointer. -/
theorem suppressed_drop_frame_witness :
    queueClaimCheck stateW "cats are mammals" "ctx" false false 1200 =
      { stateW with latestClaimId := some doneRecordW.id } :=
  suppressed_drop_frame stateW "cats are mammals" "ctx" 1200 doneRecordW 1
    1000 (by decide) (by decide) (by decide) (by decide) (by decide)
    (by norm_num [CLAIM_DUPLICATE_THRESHOLD])

/-- Claim C4 (witness): the urgent bypass theorem at the concrete recently
checked session: revision 2 becomes 3, the status returns to `queued`, and
the snapshot sits at the front of the queue. -/
theorem urgent_bypass_witness :
    (∃ r', lookupRecord
        (queueClaimCheck stateW "cats are mammals" "ctx" true false
          1200).claimById doneRecordW.id = some r' ∧
      r'.revision = doneRecordW.revision + 1 ∧
      r'.status = ClaimStatus.queued) ∧
    (queueClaimCheck stateW "cats are mammals" "ctx" true false 1200).queue =
      { id := doneRecordW.id, claim := "cats are mammals", context := "ctx",
        revision := doneRecordW.revision + 1, urgent := true }
        :: removeQueuedById doneRecordW.id stateW.queue :=
  urgent_bypass stateW "cats are mammals" "ctx" false 1200 doneRecordW 1
    (by decide)


/-! ## C2: the single in-flight invariant -/

theorem updateRecord_map_id {l : List ClaimRecord} {k : Nat}
    {r' : ClaimRecord} (h : r'.id = k) :
    (updateRecord l k r').map ClaimRecord.id = l.map ClaimRecord.id := by
  unfold updateRecord
  rw [List.map_map]
  apply List.map_congr_left
  intro a _
  by_cases ha : a.id = k <;> simp [ha, h]

theorem mem_updateRecord {l : List ClaimRecord} {k : Nat} {r' : ClaimRecord}
    {x : ClaimRecord} (h : x ∈ updateRecord l k r') :
    x = r' ∨ (x ∈ l ∧ x.id ≠ k) := by
  unfold updateRecord at h
  rcases List.mem_map.mp h with ⟨a, ha, hax⟩
  by_cases hk : a.id = k
  · rw [if_pos hk] at hax
    exact Or.inl hax.symm
  · rw [if_neg hk] at hax
    exact Or.inr ⟨hax ▸ ha, hax ▸ hk⟩

theorem ids_bound_of_map_eq {l l' : List ClaimRecord} {n : Nat}
    (hmap : l'.map ClaimRecord.id = l.map ClaimRecord.id)
    (hb : ∀ r ∈ l, r.id < n) : ∀ r' ∈ l', r'.id < n := by
  intro r' hr'
  have : r'.id ∈ l.map ClaimRecord.id := by
    rw [← hmap]; exact List.mem_map_of_mem _ hr'
  rcases List.mem_map.mp this with ⟨r, hr, hid⟩
  exact hid ▸ hb r hr

theorem length_filter_le_one_of_id {l : List ClaimRecord} {k : Nat}
    (p : ClaimRecord → Bool)
    (hnd : (l.map ClaimRecord.id).Nodup)
    (hp : ∀ r ∈ l, p r = true → r.id = k) :
    (l.filter p).length ≤ 1 := by
  induction l with
  | nil => simp
  | cons a l ih =>
    rw [List.map_cons, List.nodup_cons] at hnd
    by_cases pa : p a = true
    · rw [List.filter_cons_of_pos pa]
      have hnil : l.filter p = [] := by
        rw [List.filter_eq_nil_iff]
        intro r hr hpr
        have h1 : r.id = k := hp r (List.mem_cons_of_mem _ hr) hpr
        have h2 : a.id = k := hp a (List.mem_cons_self _ _) pa
        have hmm : r.id ∈ List.map ClaimRecord.id l :=
          List.mem_map_of_mem _ hr
        rw [h1, ← h2] at hmm
        exact hnd.1 hmm
      rw [hnil]
      simp
    · rw [List.filter_cons_of_neg pa]
      exact ih hnd.2 (fun r hr hpr => hp r (List.mem_cons_of_mem _ hr) hpr)

theorem lookupRecord_id {l : List ClaimRecord} {k : Nat} {r : ClaimRecord}
    (h : lookupRecord l k = some r) : r.id = k := by
  have := List.find?_some h
  simpa using this

theorem lookupRecord_mem {l : List ClaimRecord} {k : Nat} {r : ClaimRecord}
    (h : lookupRecord l k = some r) : r ∈ l :=
  List.mem_of_find?_eq_some h

theorem lookupRecord_none {l : List ClaimRecord} {k : Nat}
    (h : lookupRecord l k = none) : ∀ r ∈ l, r.id ≠ k := by
  intro r hr
  have := List.find?_eq_none.mp h r hr
  simpa using this

theorem startFactCheck_none {R : Type} {s : PipelineState R}
    {item : QueuedClaim} (h : lookupRecord s.claimById item.id = none) :
    startFactCheck s item = (s, false) := by
  unfold startFactCheck; rw [h]

theorem startFactCheck_stale {R : Type} {s : PipelineState R}
    {item : QueuedClaim} {r : ClaimRecord}
    (h : lookupRecord s.claimById item.id = some r)
    (hrev : r.revision ≠ item.revision) :
    startFactCheck s item = (s, false) := by
  unfold startFactCheck; simp only [h, if_neg hrev]

theorem startFactCheck_live {R : Type} {s : PipelineState R}
    {item : QueuedClaim} {r : ClaimRecord}
    (h : lookupRecord s.claimById item.id = some r)
    (hrev : r.revision = item.revision) :
    startFactCheck s item =
      ({ s with claimById := updateRecord s.claimById item.id { r with status := ClaimStatus.checking, inFlightRevision := some item.revision } }, true) := by
  unfold startFactCheck; simp only [h, if_pos hrev]

theorem drainAux_cons_discard {R : Type} {s : PipelineState R}
    {item : QueuedClaim} {rest : List QueuedClaim}
    (h : startFactCheck { s with queue := rest } item =
      ({ s with queue := rest }, false)) :
    drainAux s (item :: rest) = drainAux s rest := by
  conv_lhs => rw [drainAux]
  rw [h]

theorem drainAux_cons_live {R : Type} {s : PipelineState R}
    {item : QueuedClaim} {rest : List QueuedClaim} {s' : PipelineState R}
    (h : startFactCheck { s with queue := rest } item = (s', true)) :
    drainAux s (item :: rest) =
      ({ s' with isProcessing := true }, some item) := by
  conv_lhs => rw [drainAux]
  rw [h]

theorem drainAux_spec {R : Type} (s : PipelineState R) :
    ∀ q : List QueuedClaim,
      (∀ r ∈ s.claimById, r.status ≠ ClaimStatus.checking) →
      ((drainAux s q).1.claimById.map ClaimRecord.id =
        s.claimById.map ClaimRecord.id) ∧
      (drainAux s q).1.nextId = s.nextId ∧
      (drainAux s q).1.isProcessing = (drainAux s q).2.isSome ∧
      (∀ r' ∈ (drainAux s q).1.claimById,
        r'.status = ClaimStatus.checking →
        ∃ item, (drainAux s q).2 = some item ∧ r'.id = item.id ∧
          r'.revision = item.revision) := by
  intro q
  induction q with
  | nil =>
    intro hchk
    refine ⟨rfl, rfl, rfl, ?_⟩
    intro r' hr' hst
    exact absurd hst (hchk r' hr')
  | cons item rest ih =>
    intro hchk
    cases hl : lookupRecord s.claimById item.id with
    | none =>
      have heq := drainAux_cons_discard
        (startFactCheck_none (s := { s with queue := rest }) hl)
      rw [heq]
      exact ih hchk
    | some record =>
      by_cases hrev : record.revision = item.revision
      · have heq := drainAux_cons_live (startFactCheck_live
          (s := { s with queue := rest }) hl hrev)
        rw [heq]
        have hrid : record.id = item.id := lookupRecord_id hl
        refine ⟨updateRecord_map_id hrid, rfl, rfl, ?_⟩
        intro r' hr' hst
        rcases mem_updateRecord hr' with h' | h'
        · refine ⟨item, rfl, ?_, ?_⟩
          · rw [h']; exact hrid
          · rw [h']; exact hrev
        · exact absurd hst (hchk r' h'.1)
      · have heq := drainAux_cons_discard
          (startFactCheck_stale (s := { s with queue := rest }) hl hrev)
        rw [heq]
        exact ih hchk


theorem updateRecord_nodup {l : List ClaimRecord} {k : Nat}
    {u : ClaimRecord} (h : u.id = k)
    (hnd : (l.map ClaimRecord.id).Nodup) :
    ((updateRecord l k u).map ClaimRecord.id).Nodup := by
  rw [updateRecord_map_id h]; exact hnd

theorem updateRecord_bound {l : List ClaimRecord} {k : Nat}
    {u : ClaimRecord} {n : Nat} (h : u.id = k)
    (hb : ∀ r ∈ l, r.id < n) : ∀ r' ∈ updateRecord l k u, r'.id < n :=
  ids_bound_of_map_eq (updateRecord_map_id h) hb

theorem qcc_pres {R : Type} (s : PipelineState R) (claim context : String)
    (urgent forceCheck : Bool) (now : Int) :
    RegPres s (queueClaimCheck s claim context urgent forceCheck now) := by
  unfold queueClaimCheck
  split
  · next r sc hm =>
    dsimp only
    split_ifs with h1 h2 h3 h4
    · exact ⟨rfl, fun r' hr' _ => hr', fun hb => hb⟩
    · exact ⟨rfl, fun r' hr' _ => hr', fun hb => hb⟩
    all_goals
      refine ⟨rfl, ?_, ?_⟩
      · intro r' hr' hst
        rcases mem_updateRecord hr' with h' | h'
        · exfalso; rw [h'] at hst; exact ClaimStatus.noConfusion hst
        · exact h'.1
      · rintro ⟨hnd, hb⟩
        exact ⟨updateRecord_nodup rfl hnd, updateRecord_bound rfl hb⟩
  · next hm =>
    refine ⟨rfl, ?_, ?_⟩
    · intro r' hr' hst
      rcases List.mem_append.mp hr' with h' | h'
      · exact h'
      · exfalso
        have hr'' : r' = { id := s.nextId, claim := claim, normalized := normalizeClaim claim, revision := 1, status := ClaimStatus.queued, lastUpdatedAt := now, lastCheckedAt := none, inFlightRevision := none } := by
          simpa using h'
        rw [hr''] at hst
        exact ClaimStatus.noConfusion hst
    · rintro ⟨hnd, hb⟩
      constructor
      · dsimp only
        rw [List.map_append]
        rw [List.nodup_append]
        refine ⟨hnd, List.nodup_singleton _, ?_⟩
        intro a ha hb'
        simp only [List.map_cons, List.map_nil, List.mem_singleton] at hb'
        rcases List.mem_map.mp ha with ⟨x, hx, hxa⟩
        have hxlt := hb x hx
        rw [hxa, hb'] at hxlt
        exact lt_irrefl _ hxlt
      · intro r' hr'
        dsimp only at hr' ⊢
        rcases List.mem_append.mp hr' with h' | h'
        · exact Nat.lt_succ_of_lt (hb r' h')
        · have hid : r'.id = s.nextId := by
            have h'' := List.mem_singleton.mp h'
            rw [h'']
          rw [hid]
          exact Nat.lt_succ_self _
theorem nodup_id_eq {l : List ClaimRecord}
    (hnd : (l.map ClaimRecord.id).Nodup) {a b : ClaimRecord}
    (ha : a ∈ l) (hb : b ∈ l) (hid : a.id = b.id) : a = b :=
  List.inj_on_of_nodup_map hnd ha hb hid

theorem applyFactCheckSuccess_shape {R : Type} (s : PipelineState R)
    (item : QueuedClaim) (result : R) (now : Int)
    (hnd : (s.claimById.map ClaimRecord.id).Nodup)
    (hchk : ∀ r ∈ s.claimById, r.status = ClaimStatus.checking →
      r.id = item.id ∧ r.revision = item.revision) :
    ((applyFactCheckSuccess s item result now).claimById.map ClaimRecord.id =
      s.claimById.map ClaimRecord.id) ∧
    (applyFactCheckSuccess s item result now).nextId = s.nextId ∧
    (∀ r' ∈ (applyFactCheckSuccess s item result now).claimById,
      r'.status ≠ ClaimStatus.checking) := by
  unfold applyFactCheckSuccess
  split
  · next hl =>
    refine ⟨rfl, rfl, ?_⟩
    intro r' hr' hst
    exact lookupRecord_none hl r' hr' (hchk r' hr' hst).1
  · next current hl =>
    split_ifs with hrev
    · have hid : current.id = item.id := lookupRecord_id hl
      refine ⟨?_, rfl, ?_⟩
      · exact updateRecord_map_id hid
      · intro r' hr' hst
        rcases mem_updateRecord hr' with h' | h'
        · rw [h'] at hst; exact ClaimStatus.noConfusion hst
        · exact h'.2 (hchk r' h'.1 hst).1
    · refine ⟨rfl, rfl, ?_⟩
      intro r' hr' hst
      rcases hchk r' hr' hst with ⟨hid, hrev'⟩
      have heq : r' = current :=
        nodup_id_eq hnd hr' (lookupRecord_mem hl)
          (by rw [hid, lookupRecord_id hl])
      rw [heq] at hrev'
      exact hrev hrev'

theorem applyFactCheckFailure_shape {R : Type} (s : PipelineState R)
    (item : QueuedClaim)
    (hnd : (s.claimById.map ClaimRecord.id).Nodup)
    (hchk : ∀ r ∈ s.claimById, r.status = ClaimStatus.checking →
      r.id = item.id ∧ r.revision = item.revision) :
    ((applyFactCheckFailure s item).claimById.map ClaimRecord.id =
      s.claimById.map ClaimRecord.id) ∧
    (applyFactCheckFailure s item).nextId = s.nextId ∧
    (∀ r' ∈ (applyFactCheckFailure s item).claimById,
      r'.status ≠ ClaimStatus.checking) := by
  unfold applyFactCheckFailure
  split
  · next hl =>
    refine ⟨rfl, rfl, ?_⟩
    intro r' hr' hst
    exact lookupRecord_none hl r' hr' (hchk r' hr' hst).1
  · next current hl =>
    split_ifs with hrev
    · have hid : current.id = item.id := lookupRecord_id hl
      refine ⟨?_, rfl, ?_⟩
      · exact updateRecord_map_id hid
      · intro r' hr' hst
        rcases mem_updateRecord hr' with h' | h'
        · rw [h'] at hst; exact ClaimStatus.noConfusion hst
        · exact h'.2 (hchk r' h'.1 hst).1
    · refine ⟨rfl, rfl, ?_⟩
      intro r' hr' hst
      rcases hchk r' hr' hst with ⟨hid, hrev'⟩
      have heq : r' = current :=
        nodup_id_eq hnd hr' (lookupRecord_mem hl)
          (by rw [hid, lookupRecord_id hl])
      rw [heq] at hrev'
      exact hrev hrev'

theorem regPres_refl {R : Type} (s : PipelineState R) : RegPres s s :=
  ⟨rfl, fun r' hr' _ => hr', id⟩

theorem regPres_trans {R : Type} {s1 s2 s3 : PipelineState R}
    (h12 : RegPres s1 s2) (h23 : RegPres s2 s3) : RegPres s1 s3 :=
  ⟨h23.1.trans h12.1,
   fun r' hr' hst => h12.2.1 r' (h23.2.1 r' hr' hst) hst,
   fun hb => h23.2.2 (h12.2.2 hb)⟩

theorem foldl_regPres {R : Type}
    (f : PipelineState R → String → PipelineState R)
    (hf : ∀ (s : PipelineState R) (c : String), RegPres s (f s c)) :
    ∀ (l : List String) (s : PipelineState R),
      RegPres s (List.foldl f s l) := by
  intro l
  induction l with
  | nil => intro s; exact regPres_refl s
  | cons c cs ih => intro s; exact regPres_trans (hf s c) (ih (f s c))

theorem processExtractResponse_regPres {R : Type} (s : PipelineState R)
    (claims forced : List String) (intent : ExtractIntent) (context : String)
    (now : Int) :
    RegPres s (processExtractResponse s claims forced intent context now).1 := by
  have h1 : RegPres s (claims.foldl
      (fun acc claim => queueClaimCheck acc claim context
        (intent.hasDispute || (intent.hasExplicitVerify ||
          forced.contains claim))
        (intent.hasExplicitVerify || forced.contains claim) now) s) :=
    foldl_regPres _ (fun s' c => qcc_pres s' c context _ _ now) claims s
  unfold processExtractResponse
  dsimp only
  split_ifs with hcond
  · split
    · split
      · next latestRecord heq2 =>
        exact regPres_trans h1 (qcc_pres _ _ context true true now)
      · exact h1
    · exact h1
  · exact h1

theorem workerInv_regPres {R : Type} {c : Config R} {s' : PipelineState R}
    (h : WorkerInv c) (hp : RegPres c.1 s') : WorkerInv (s', c.2) := by
  obtain ⟨h1, h2, h3, h4⟩ := h
  obtain ⟨p1, p2, p3⟩ := hp
  obtain ⟨n1, n2⟩ := p3 ⟨h2, h3⟩
  exact ⟨p1.trans h1, n1, n2, fun r' hr' hst => h4 r' (p2 r' hr' hst) hst⟩

theorem triggerDrain_inv {R : Type} {c : Config R} (h : WorkerInv c) :
    WorkerInv (triggerDrain c) := by
  obtain ⟨h1, h2, h3, h4⟩ := h
  unfold triggerDrain
  split_ifs with hcond
  · exact ⟨h1, h2, h3, h4⟩
  · have hproc : c.1.isProcessing = false := by
      cases hval : c.1.isProcessing
      · rfl
      · exfalso
        apply hcond
        rw [hval]
        rfl
    have hw : c.2 = none := by
      cases hw2 : c.2 with
      | none => rfl
      | some it =>
        rw [hw2, hproc] at h1
        exact Bool.noConfusion h1
    have hchk : ∀ r ∈ c.1.claimById, r.status ≠ ClaimStatus.checking := by
      intro r hr hst
      rcases h4 r hr hst with ⟨item, hitem, _⟩
      rw [hw] at hitem
      exact Option.noConfusion hitem
    obtain ⟨m1, m2, m3, m4⟩ := drainAux_spec c.1 c.1.queue hchk
    refine ⟨m3, ?_, ?_, m4⟩
    · rw [m1]; exact h2
    · rw [m2]; exact ids_bound_of_map_eq m1 h3


theorem stepEvent_inv {R : Type} (c : Config R) (e : PipeEvent R)
    (h : WorkerInv c) : WorkerInv (stepEvent c e) := by
  obtain ⟨h1, h2, h3, h4⟩ := h
  cases e with
  | fragment text dispute explicitVerify =>
    simp only [stepEvent]
    exact ⟨h1, h2, h3, h4⟩
  | extractResp claims forced intent context now =>
    have hpres := processExtractResponse_regPres c.1 claims forced intent
      context now
    simp only [stepEvent]
    split
    · next s1 heq =>
      apply triggerDrain_inv
      rw [heq] at hpres
      exact workerInv_regPres ⟨h1, h2, h3, h4⟩ hpres
    · next s1 heq =>
      rw [heq] at hpres
      exact workerInv_regPres ⟨h1, h2, h3, h4⟩ hpres
  | textSubmit claim context now =>
    simp only [stepEvent]
    split_ifs with htrim
    · exact ⟨h1, h2, h3, h4⟩
    · exact triggerDrain_inv (workerInv_regPres ⟨h1, h2, h3, h4⟩
        (qcc_pres c.1 ⟨trimChars claim.data⟩ context true true now))
  | respondSuccess result now =>
    simp only [stepEvent]
    split
    · next item hw =>
      apply triggerDrain_inv
      have hchk2 : ∀ r ∈ c.1.claimById, r.status = ClaimStatus.checking →
          r.id = item.id ∧ r.revision = item.revision := by
        intro r hr hst
        rcases h4 r hr hst with ⟨item', heq, hid, hrev⟩
        rw [hw] at heq
        injection heq with heq'
        rw [heq']
        exact ⟨hid, hrev⟩
      obtain ⟨m1, m2, m3⟩ :=
        applyFactCheckSuccess_shape c.1 item result now h2 hchk2
      refine ⟨rfl, ?_, ?_, ?_⟩
      · dsimp only
        rw [m1]
        exact h2
      · dsimp only
        rw [m2]
        exact ids_bound_of_map_eq m1 h3
      · intro r' hr' hst
        exact absurd hst (m3 r' hr')
    · next hw => exact ⟨h1, h2, h3, h4⟩
  | respondFailure now =>
    simp only [stepEvent]
    split
    · next item hw =>
      apply triggerDrain_inv
      have hchk2 : ∀ r ∈ c.1.claimById, r.status = ClaimStatus.checking →
          r.id = item.id ∧ r.revision = item.revision := by
        intro r hr hst
        rcases h4 r hr hst with ⟨item', heq, hid, hrev⟩
        rw [hw] at heq
        injection heq with heq'
        rw [heq']
        exact ⟨hid, hrev⟩
      obtain ⟨m1, m2, m3⟩ := applyFactCheckFailure_shape c.1 item h2 hchk2
      refine ⟨rfl, ?_, ?_, ?_⟩
      · dsimp only
        rw [m1]
        exact h2
      · dsimp only
        rw [m2]
        exact ids_bound_of_map_eq m1 h3
      · intro r' hr' hst
        exact absurd hst (m3 r' hr')
    · next hw => exact ⟨h1, h2, h3, h4⟩

theorem workerInv_init {R : Type} : WorkerInv ((initState R), none) := by
  refine ⟨rfl, ?_, ?_, ?_⟩
  · simp [initState]
  · intro r hr
    simp [initState] at hr
  · intro r hr
    simp [initState] at hr

theorem reachable_workerInv {R : Type} :
    ∀ c : Config R, Reachable c → WorkerInv c := by
  intro c h
  induction h with
  | init => exact workerInv_init
  | step h e ih => exact stepEvent_inv _ e ih


/-- C2: at every reachable state of the pipeline, under any interleaving of
transcript fragments, extraction responses and verification responses, at
most one `ClaimRecord` has `status = checking` — the verification worker
never has two verification requests in flight simultaneously. -/
theorem single_inflight {R : Type} (c : Config R) (h : Reachable c) :
    countChecking c.1 ≤ 1 := by
  obtain ⟨h1, h2, h3, h4⟩ := reachable_workerInv c h
  unfold countChecking
  cases hw : c.2 with
  | none =>
    refine length_filter_le_one_of_id (k := 0) _ h2 ?_
    intro r hr hp
    rcases h4 r hr (by simpa using hp) with ⟨item, heq, hid, hrev⟩
    rw [hw] at heq
    exact Option.noConfusion heq
  | some item =>
    refine length_filter_le_one_of_id (k := item.id) _ h2 ?_
    intro r hr hp
    rcases h4 r hr (by simpa using hp) with ⟨item', heq, hid, hrev⟩
    rw [hw] at heq
    injection heq with h'
    rw [hid, h']

theorem single_inflight_witness :
    countChecking (stepEvent
      (stepEvent ((initState Nat), (none : Option QueuedClaim))
        (PipeEvent.textSubmit "cats are mammals" "ctx" 100))
      (PipeEvent.textSubmit "dogs bark loudly" "ctx" 200)).1 ≤ 1 :=
  single_inflight _ (Reachable.step (Reachable.step Reachable.init _) _)

theorem qcc_claims {R : Type} (s : PipelineState R) (claim context : String)
    (urgent forceCheck : Bool) (now : Int) :
    ∀ r ∈ (queueClaimCheck s claim context urgent forceCheck now).claimById,
      r.claim = claim ∨ ∃ r0 ∈ s.claimById, r.claim = r0.claim := by
  intro r hr
  unfold queueClaimCheck at hr
  dsimp only at hr
  cases hmatch : findMatch s.claimIndex s.claimById claim with
  | none =>
    rw [hmatch] at hr
    dsimp only at hr
    rcases List.mem_append.mp hr with h | h
    · exact Or.inr ⟨r, h, rfl⟩
    · have h' := List.mem_singleton.mp h
      exact Or.inl (by rw [h'])
  | some pr =>
    obtain ⟨matchedRecord, matchScore⟩ := pr
    rw [hmatch] at hr
    dsimp only at hr
    split_ifs at hr with h1 h2 h3 h4
    all_goals try exact Or.inr ⟨r, hr, rfl⟩
    all_goals rcases mem_updateRecord hr with h | ⟨h, h5⟩
    all_goals first
      | exact Or.inl (by rw [h])
      | exact Or.inr ⟨r, h, rfl⟩

theorem foldl_qcc_claims {R : Type} (forced : List String)
    (intent : ExtractIntent) (context : String) (now : Int) :
    ∀ (claims : List String) (s : PipelineState R) (r : ClaimRecord),
      r ∈ (claims.foldl (fun acc claim =>
          queueClaimCheck acc claim context
            (intent.hasDispute || (intent.hasExplicitVerify ||
              forced.contains claim))
            (intent.hasExplicitVerify || forced.contains claim) now)
        s).claimById →
      (∃ cl ∈ claims, r.claim = cl) ∨ ∃ r0 ∈ s.claimById, r.claim = r0.claim := by
  intro claims
  induction claims with
  | nil =>
    intro s r hr
    exact Or.inr ⟨r, hr, rfl⟩
  | cons c cs ih =>
    intro s r hr
    rw [List.foldl_cons] at hr
    rcases ih _ r hr with ⟨cl, hcl, hceq⟩ | ⟨r0, hr0, heq⟩
    · exact Or.inl ⟨cl, List.mem_cons_of_mem _ hcl, hceq⟩
    · rcases qcc_claims s c context _ _ now r0 hr0 with h | ⟨r1, hr1, heq1⟩
      · exact Or.inl ⟨c, List.mem_cons_self c cs, heq.trans h⟩
      · exact Or.inr ⟨r1, hr1, heq.trans heq1⟩

theorem processExtractResponse_claims {R : Type} (s : PipelineState R)
    (claims forced : List String) (intent : ExtractIntent) (context : String)
    (now : Int) :
    ∀ r ∈ (processExtractResponse s claims forced intent
        context now).1.claimById,
      (∃ cl ∈ claims, r.claim = cl) ∨ ∃ r0 ∈ s.claimById, r.claim = r0.claim := by
  intro r hr
  unfold processExtractResponse at hr
  dsimp only at hr
  split at hr
  · split at hr
    · split at hr
      · next latestRecord heq2 =>
        dsimp only at hr
        rcases qcc_claims _ latestRecord.claim context true true now r hr with
          h | ⟨r0, hr0, heq3⟩
        · have hmem := lookupRecord_mem heq2
          rcases foldl_qcc_claims forced intent context now claims s
              latestRecord hmem with ⟨cl, hcl, hc⟩ | ⟨r0, hr0, hc⟩
          · exact Or.inl ⟨cl, hcl, h.trans hc⟩
          · exact Or.inr ⟨r0, hr0, h.trans hc⟩
        · rcases foldl_qcc_claims forced intent context now claims s r0 hr0
            with ⟨cl, hcl, hc⟩ | ⟨r1, hr1, hc⟩
          · exact Or.inl ⟨cl, hcl, heq3.trans hc⟩
          · exact Or.inr ⟨r1, hr1, heq3.trans hc⟩
      · exact foldl_qcc_claims forced intent context now claims s r hr
    · exact foldl_qcc_claims forced intent context now claims s r hr
  · exact foldl_qcc_claims forced intent context now claims s r hr

/-- C8: malformed candidate claims — empty or too short after trimming —
are filtered out before reaching the Claim Registry: every candidate that
survives the route filter has a trimmed length above 10 characters, and
after the orchestrator processes an extraction response built from the
filtered list, every record in the registry either keeps the claim text of
a pre-existing record or carries one of the well-formed candidates, so no
`ClaimRecord` is ever created for a malformed candidate. -/
theorem malformed_filtered {R : Type} (s : PipelineState R)
    (raws forced : List String) (intent : ExtractIntent) (context : String)
    (now : Int) :
    (∀ cl ∈ routeFilterClaims raws,
       trimChars cl.data ≠ [] ∧ 10 < (trimChars cl.data).length) ∧
    (∀ r ∈ (processExtractResponse s (routeFilterClaims raws) forced intent
        context now).1.claimById,
      (∃ r0 ∈ s.claimById, r.claim = r0.claim) ∨
      (trimChars r.claim.data ≠ [] ∧ 10 < (trimChars r.claim.data).length)) := by
  have hfilter : ∀ cl ∈ routeFilterClaims raws,
      trimChars cl.data ≠ [] ∧ 10 < (trimChars cl.data).length := by
    intro cl hcl
    unfold routeFilterClaims at hcl
    have hp := (List.mem_filter.mp hcl).2
    have hlen : 10 < (trimChars cl.data).length := of_decide_eq_true hp
    refine ⟨?_, hlen⟩
    intro hnil
    rw [hnil] at hlen
    exact absurd hlen (by decide)
  refine ⟨hfilter, ?_⟩
  intro r hr
  rcases processExtractResponse_claims s (routeFilterClaims raws) forced
      intent context now r hr with ⟨cl, hcl, hc⟩ | ⟨r0, hr0, hc⟩
  · right
    rw [hc]
    exact hfilter cl hcl
  · exact Or.inl ⟨r0, hr0, hc⟩

end FactChecker
